import Mathlib

set_option linter.unusedVariables false

/-!
Shallow embedding of the `llm_osint` repository's pure logic, together with
proofs about it.

Python strings are modelled as `List Char` (a Python `str` is a sequence of
code points).  The HTML element trees handled by `link_scraping.py` are
modelled by the inductive type `Elem` below; JSON-like search responses
handled by `tools/search.py` are modelled by `JVal`.

Sources embedded here:
  * `llm_osint/link_scraping.py`:
      `scrape_text`, `_element_to_text`, `_chunk_element`,
      `_merge_text_chunks`, `chunk_and_strip_html`, `MAX_LINK_LEN`.
  * `llm_osint/tools/search.py`:
      `BrightDataSerperAPIWrapper._parse_snippets` / `._parse_results`,
      `GoogleSerperSearchWrapper._parse_results`.
-/

/-- Python strings are sequences of code points. -/
abbrev Str := List Char

/-- Characters stripped by Python `str.strip()` (the Latin-1 part of Python's
whitespace set, which covers every string the embedded code manipulates). -/
def isPySpace (c : Char) : Bool :=
  c = ' ' || c = '\t' || c = '\n' || c = '\r' || c = '\x0b' || c = '\x0c' ||
  c = '\x1c' || c = '\x1d' || c = '\x1e' || c = '\x1f' || c = '\x85' || c = '\xa0'

/-- Python `str.strip()`: drop leading and trailing whitespace. -/
def pyStrip (cs : Str) : Str :=
  ((cs.dropWhile isPySpace).reverse.dropWhile isPySpace).reverse

/-- Line boundary characters recognised by Python `str.splitlines()`
(besides the two-character boundary `"\r\n"`, handled separately). -/
def isLineBoundary (c : Char) : Bool :=
  c = '\n' || c = '\r' || c = '\x0b' || c = '\x0c' ||
  c = '\x1c' || c = '\x1d' || c = '\x1e' || c = '\x85' ||
  c = '\u2028' || c = '\u2029'

/-- Worker for `splitlines`; `acc` holds the current line reversed. -/
def splitlinesGo : List Char → Str → List Str
  | [], acc => [acc.reverse]
  | '\r' :: '\n' :: rest, acc =>
      acc.reverse :: (if rest.isEmpty then [] else splitlinesGo rest [])
  | c :: rest, acc =>
      if isLineBoundary c then
        acc.reverse :: (if rest.isEmpty then [] else splitlinesGo rest [])
      else
        splitlinesGo rest (c :: acc)

/-- Python `str.splitlines()`: split at line boundaries, no trailing empty
line, and the empty string yields no lines at all. -/
def splitlines (cs : Str) : List Str :=
  if cs.isEmpty then [] else splitlinesGo cs []

/-- Worker for `splitOn2`; `acc` holds the current field reversed. -/
def splitOn2Go : List Char → Str → List Str
  | [], acc => [acc.reverse]
  | ' ' :: ' ' :: rest, acc => acc.reverse :: splitOn2Go rest []
  | c :: rest, acc => splitOn2Go rest (c :: acc)

/-- Python `str.split("  ")`: split on each non-overlapping occurrence of two
consecutive spaces, scanning left to right. -/
def splitOn2 (cs : Str) : List Str :=
  splitOn2Go cs []

/-- HTML nodes as produced by BeautifulSoup: a `nav` is a NavigableString
(a bare text node), a `tag` has a name, attributes and child nodes. -/
inductive Elem where
  | nav : Str → Elem
  | tag : Str → List (Str × Str) → List Elem → Elem

/-- Whether a node is a Tag (as opposed to a NavigableString). -/
def Elem.isTag : Elem → Bool
  | .nav _ => false
  | .tag _ _ _ => true

/-- First value bound to attribute `k`, like BeautifulSoup's `element[k]`
lookup on a present attribute. -/
def getAttr (attrs : List (Str × Str)) (k : Str) : Option Str :=
  (attrs.find? (fun p => p.1 == k)).map (fun p => p.2)

mutual

/-- BeautifulSoup `element.get_text()`: concatenation of every text node in
the subtree, in document order, with no separator. -/
def getText : Elem → Str
  | .nav s => s
  | .tag _ _ cs => getTextList cs

/-- Concatenated text of a list of sibling nodes. -/
def getTextList : List Elem → Str
  | [] => []
  | c :: cs => getText c ++ getTextList cs

end

mutual

/-- BeautifulSoup `element.find_all("a", href=True)`, restricted to the
`href` values: hrefs of every descendant `<a>` tag carrying an `href`
attribute, in document (pre-)order.  The element itself is not searched. -/
def descendantLinkHrefs : Elem → List Str
  | .nav _ => []
  | .tag _ _ cs => linkHrefsIn cs

/-- Hrefs contributed by a list of sibling subtrees (each subtree's root
included), in document order. -/
def linkHrefsIn : List Elem → List Str
  | [] => []
  | c :: cs => ownAndBelowHrefs c ++ linkHrefsIn cs

/-- Hrefs of a node itself (when it is an `<a href=...>` tag) followed by
those of its descendants. -/
def ownAndBelowHrefs : Elem → List Str
  | .nav _ => []
  | .tag name attrs cs =>
      (if name == "a".data then
        match getAttr attrs "href".data with
        | some h => [h]
        | none => []
      else []) ++ linkHrefsIn cs

end

/-- Maximum retained link length (`MAX_LINK_LEN = 120` in
`link_scraping.py`). -/
def MAX_LINK_LEN : Nat := 120

/-- The `links` list built by `_element_to_text`: hrefs found by
`find_all("a", href=True)` whose length is at most `MAX_LINK_LEN`. -/
def _element_links (e : Elem) : List Str :=
  (descendantLinkHrefs e).filter (fun l => l.length ≤ MAX_LINK_LEN)

/-- Deduplicated link list, modelling `list(set(links))`.  Python's `set`
iteration order is unspecified; the model fixes first-occurrence order, and
every property proved about it is order-independent. -/
def _element_links_dedup (e : Elem) : List Str :=
  (_element_links e).dedup

/-- The `text` variable of `_element_to_text`: lines of `get_text()` are
stripped, split on double spaces, stripped again, and the non-empty parts
are joined with newlines. -/
def _element_text_part (e : Elem) : Str :=
  let lines := (splitlines (getText e)).map pyStrip
  let parts := lines.flatMap (fun line => (splitOn2 line).map pyStrip)
  List.intercalate ['\n'] (parts.filter (fun c => !c.isEmpty))

/-- Model of `_element_to_text`: the cleaned text followed by
`"\n\nLinks: "` and the space-joined deduplicated link list. -/
def _element_to_text (e : Elem) : Str :=
  _element_text_part e ++ ("\n\nLinks: ".data ++ List.intercalate [' '] (_element_links_dedup e))

/-- BeautifulSoup `element.findChildren(recursive=False)`: the direct child
Tags of a node (NavigableStrings are not returned). -/
def findChildren (e : Elem) : List Elem :=
  match e with
  | .nav _ => []
  | .tag _ _ cs => cs.filter Elem.isTag

mutual

/-- Model of `_chunk_element`: empty extracted text contributes nothing, text
within `max_size` is one chunk, otherwise the element's child Tags are
chunked recursively and concatenated in sibling order.  (In the pipeline the
function is only ever applied to Tags: recursion goes through
`findChildren`, which filters NavigableStrings out, and the root is the
soup; on a NavigableString the oversized branch yields `[]`.) -/
def _chunk_element (e : Elem) (m : Nat) : List Str :=
  let text := _element_to_text e
  if text.length = 0 then []
  else if text.length ≤ m then [text]
  else
    match e with
    | .nav _ => []
    | .tag _ _ cs => chunkTagChildren cs m

/-- The `for child in element.findChildren(recursive=False)` loop of
`_chunk_element`: chunk each child Tag and concatenate the results in
sibling order. -/
def chunkTagChildren : List Elem → Nat → List Str
  | [], _ => []
  | c :: rest, m => (if c.isTag then _chunk_element c m else []) ++ chunkTagChildren rest m

end

/-- One step of the `_merge_text_chunks` loop: state is the pair
(accumulated output, current string). -/
def mergeStep (max_size : Nat) (acc : List Str × Str) (s : Str) : List Str × Str :=
  if acc.2.length + s.length ≤ max_size then (acc.1, acc.2 ++ s)
  else (acc.1 ++ [acc.2], s)

/-- Model of `_merge_text_chunks`: fold the greedy-concatenation step over
the input, then flush the final current string if it is non-empty
(Python's `if current_string:` truthiness test). -/
def _merge_text_chunks (vals : List Str) (max_size : Nat) : List Str :=
  let p := vals.foldl (mergeStep max_size) ([], [])
  if p.2 = [] then p.1 else p.1 ++ [p.2]

/-- Recursive presentation of the `_merge_text_chunks` loop, with the
current string as explicit state; proved equal to the fold below. -/
def mergeGo (m : Nat) : List Str → Str → List Str
  | [], cur => if cur = [] then [] else [cur]
  | s :: rest, cur =>
      if cur.length + s.length ≤ m then mergeGo m rest (cur ++ s)
      else cur :: mergeGo m rest s

/-- Model of `chunk_and_strip_html` after parsing: chunk the root element
and merge the chunks.  (Script/style extraction happens before `soup` is
handed to `_chunk_element`, so the tree here is the already-pruned one.) -/
def chunk_and_strip_html (root : Elem) (max_size : Nat) : List Str :=
  _merge_text_chunks (_chunk_element root max_size) max_size

/-- Model of `scrape_text`'s retry loop.  The network fetch is an oracle
`fetch` giving each attempt's outcome (`Except ε α`), indexed by the attempt
number; `k` is the index of the current attempt.  On failure the function
re-invokes itself with `retries - 1` while `retries > 0`, re-raising the
exception once retries are exhausted. -/
def scrape_text {ε α : Type} (fetch : Nat → Except ε α) (k : Nat) (retries : Nat) :
    Except ε α :=
  match fetch k with
  | .ok v => .ok v
  | .error e => if 0 < retries then scrape_text fetch (k + 1) (retries - 1) else .error e
termination_by retries

/-- Number of fetch attempts performed by `scrape_text` before it returns
or raises. -/
def scrape_attempts {ε α : Type} (fetch : Nat → Except ε α) (k : Nat) (retries : Nat) :
    Nat :=
  match fetch k with
  | .ok _ => 1
  | .error _ => if 0 < retries then 1 + scrape_attempts fetch (k + 1) (retries - 1) else 1
termination_by retries

/-- JSON-like Python values appearing in a Serper search response. -/
inductive JVal where
  | str (s : Str)
  | num (n : Int)
  | bool (b : Bool)
  | null
  | arr (xs : List JVal)
  | obj (kvs : List (Str × JVal))

/-- Python exceptions the parsing code can raise. -/
inductive PyErr where
  | keyError (k : Str)
  | attributeError
  | typeError
deriving DecidableEq

/-- Python truthiness of a value (`if v:`). -/
def truthy : JVal → Bool
  | .str s => !s.isEmpty
  | .num n => n != 0
  | .bool b => b
  | .null => false
  | .arr xs => !xs.isEmpty
  | .obj kvs => !kvs.isEmpty

/-- Truthiness of a `dict.get` result: `None` is falsy. -/
def optTruthy : Option JVal → Bool
  | none => false
  | some v => truthy v

/-- Python `dict.get(k)` on a dictionary given as a key-value list. -/
def dictGet (kvs : List (Str × JVal)) (k : Str) : Option JVal :=
  (kvs.find? (fun p => p.1 == k)).map (fun p => p.2)

/-- Python `d[k]` on a dictionary: `KeyError` when the key is absent. -/
def dictIndex (kvs : List (Str × JVal)) (k : Str) : Except PyErr JVal :=
  match dictGet kvs k with
  | some v => .ok v
  | none => .error (.keyError k)

/-- Python `v.get(k)` on an arbitrary value: `AttributeError` unless `v` is
a dict. -/
def jGet (v : JVal) (k : Str) : Except PyErr (Option JVal) :=
  match v with
  | .obj kvs => .ok (dictGet kvs k)
  | _ => .error .attributeError

/-- Python `v.get(k, d)`. -/
def jGetD (v : JVal) (k : Str) (d : JVal) : Except PyErr JVal := do
  let o ← jGet v k
  pure (o.getD d)

/-- Python `v[k]` on an arbitrary value: `KeyError` for a dict missing the
key, `TypeError` when `v` is not a dict at all. -/
def jIndex (v : JVal) (k : Str) : Except PyErr JVal :=
  match v with
  | .obj kvs => dictIndex kvs k
  | _ => .error .typeError

/-- Python `k in v` (dict key containment; other receivers raise). -/
def jContains (v : JVal) (k : Str) : Except PyErr Bool :=
  match v with
  | .obj kvs => .ok (dictGet kvs k).isSome
  | _ => .error .typeError

/-- Python `v.items()`. -/
def jItems (v : JVal) : Except PyErr (List (Str × JVal)) :=
  match v with
  | .obj kvs => .ok kvs
  | _ => .error .typeError

/-- Iterating a value expected to be a list. -/
def jList (v : JVal) : Except PyErr (List JVal) :=
  match v with
  | .arr xs => .ok xs
  | _ => .error .typeError

/-- Python `v[:k]` on a list. -/
def jSlice (v : JVal) (k : Nat) : Except PyErr (List JVal) := do
  let xs ← jList v
  pure (xs.take k)

/-- Python `", ".join(v)` over a list of strings (non-string members raise
`TypeError`, as does a non-iterable receiver). -/
def jStrList (v : JVal) : Except PyErr (List Str) :=
  match v with
  | .arr xs =>
      xs.mapM (fun x =>
        match x with
        | .str s => .ok s
        | _ => .error .typeError)
  | _ => .error .typeError

mutual

/-- Python `repr` of a value (string escaping inside quotes is not
modelled; no claim depends on it). -/
def pyRepr : JVal → Str
  | .str s => '\'' :: (s ++ ['\''])
  | .num n => (toString n).data
  | .bool true => "True".data
  | .bool false => "False".data
  | .null => "None".data
  | .arr xs => '[' :: (pyReprList xs ++ [']'])
  | .obj kvs => Char.ofNat 123 :: (pyReprPairs kvs ++ [Char.ofNat 125])

/-- Comma-separated `repr`s of list members. -/
def pyReprList : List JVal → Str
  | [] => []
  | [x] => pyRepr x
  | x :: y :: rest => pyRepr x ++ (", ".data ++ pyReprList (y :: rest))

/-- Comma-separated `repr`s of dict items. -/
def pyReprPairs : List (Str × JVal) → Str
  | [] => []
  | [(k, v)] => pyRepr (.str k) ++ (": ".data ++ pyRepr v)
  | (k, v) :: p :: rest =>
      pyRepr (.str k) ++ (": ".data ++ (pyRepr v ++ (", ".data ++ pyReprPairs (p :: rest))))

end

/-- Python `str(v)`: identity on strings, `repr`-style otherwise. -/
def pyStr : JVal → Str
  | .str s => s
  | v => pyRepr v

/-- Rendering of a `dict.get` result inside an f-string (`None` prints as
`"None"`). -/
def pyOptStr : Option JVal → Str
  | none => "None".data
  | some v => pyStr v

/-- Python `v.replace("\n", " ")` (a string method; other receivers raise
`AttributeError`). -/
def pyReplaceNl (v : JVal) : Except PyErr Str :=
  match v with
  | .str s => .ok (s.map (fun c => if c = '\n' then ' ' else c))
  | _ => .error .attributeError

/-- Model of `BrightDataSerperAPIWrapper._parse_snippets`.  `k` is the
wrapper's `self.k` (default 10); `results` is the response dictionary.
Values appended to `snippets` are rendered with `pyStr` (the identity on
the strings a Serper response actually contains). -/
def brightdata_parse_snippets (k : Nat) (results : List (Str × JVal)) :
    Except PyErr (List Str) := do
  let kg := (dictGet results "knowledgeGraph".data).getD (.obj [])
  let kgSnippets ←
    if truthy kg then do
      let title ← jGet kg "title".data
      let type_ ← jGet kg "type".data
      let description ← jGet kg "description".data
      let base := "Knowledge Graph: ".data ++ pyOptStr title ++ " (".data ++
        pyOptStr type_ ++ ") - ".data ++ pyOptStr description
      let attrs ← jGetD kg "attributes".data (.obj [])
      let items ← jItems attrs
      pure (base :: items.map (fun p => p.1 ++ ": ".data ++ pyStr p.2))
    else pure []
  let organic := (dictGet results "organic".data).getD (.arr [])
  let organicList ← jSlice organic k
  let organicSnippets ← organicList.mapM (fun r => do
      let snippet ← jGet r "snippet".data
      let s1 := if optTruthy snippet then [pyStr (snippet.getD .null)] else []
      let title ← jGet r "title".data
      let s2 := if optTruthy title then ["Title: ".data ++ pyStr (title.getD .null)] else []
      let link ← jGet r "link".data
      let s3 := if optTruthy link then ["URL: ".data ++ pyStr (link.getD .null)] else []
      pure (s1 ++ s2 ++ s3))
  let paa := (dictGet results "peopleAlsoAsk".data).getD (.arr [])
  let paaList ← jList paa
  let paaSnippets ← paaList.mapM (fun item => do
      let q ← jGet item "question".data
      let a ← jGet item "snippet".data
      pure ("People Also Ask: ".data ++ pyOptStr q ++ " - ".data ++ pyOptStr a))
  let rs := (dictGet results "relatedSearches".data).getD (.arr [])
  let rsList ← jList rs
  let rsSnippets ← rsList.mapM (fun item => do
      let q ← jGet item "query".data
      pure ("Related Search: ".data ++ pyOptStr q))
  let snippets := kgSnippets ++ organicSnippets.flatten ++ paaSnippets ++ rsSnippets
  if snippets.length = 0 then
    return ["No good search result was found".data]
  else
    return snippets

/-- Model of `BrightDataSerperAPIWrapper._parse_results`:
`" ".join(self._parse_snippets(results))`. -/
def brightdata_parse_results (k : Nat) (results : List (Str × JVal)) :
    Except PyErr Str :=
  (brightdata_parse_snippets k results).map (List.intercalate " ".data)

/-- Model of `GoogleSerperSearchWrapper._parse_results` (the caching
variant): answer-box early returns, then knowledge-graph snippets, then the
`results["organic"]` loop — a plain subscript that raises `KeyError` when
the key is absent — and finally the fallback string for an empty snippet
list. -/
def google_parse_results (k : Nat) (results : List (Str × JVal)) :
    Except PyErr Str := do
  if optTruthy (dictGet results "answerBox".data) then
    let answer_box := (dictGet results "answerBox".data).getD (.obj [])
    let ans ← jGet answer_box "answer".data
    if optTruthy ans then
      return pyStr (ans.getD .null)
    else
      let snip ← jGet answer_box "snippet".data
      if optTruthy snip then
        return (← pyReplaceNl (snip.getD .null))
      else
        let sh ← jGet answer_box "snippetHighlighted".data
        if optTruthy sh then
          return List.intercalate ", ".data (← jStrList (sh.getD .null))
  let kgSnippets ←
    if optTruthy (dictGet results "knowledgeGraph".data) then do
      let kg := (dictGet results "knowledgeGraph".data).getD (.obj [])
      let title ← jGet kg "title".data
      let entity_type ← jGet kg "type".data
      let s1 :=
        if optTruthy entity_type then
          [pyOptStr title ++ ": ".data ++ pyOptStr entity_type ++ ".".data]
        else []
      let description ← jGet kg "description".data
      let s2 := if optTruthy description then [pyStr (description.getD .null)] else []
      let attrs ← jGetD kg "attributes".data (.obj [])
      let items ← jItems attrs
      pure (s1 ++ s2 ++ items.map (fun p =>
        pyOptStr title ++ " ".data ++ p.1 ++ ": ".data ++ pyStr p.2 ++ ".".data))
    else pure []
  let organic ← dictIndex results "organic".data
  let organicList ← jSlice organic k
  let organicSnippets ← organicList.mapM (fun r => do
      let s1 ←
        if (← jContains r "snippet".data) then do
          let t ← jIndex r "title".data
          let sn ← jIndex r "snippet".data
          let l ← jIndex r "link".data
          pure [pyStr t ++ ": ".data ++ pyStr sn ++ " (link ".data ++ pyStr l ++ ")".data]
        else pure []
      let attrs ← jGetD r "attributes".data (.obj [])
      let items ← jItems attrs
      let s2 ← items.mapM (fun p => do
        let t ← jIndex r "title".data
        pure (pyStr t ++ ": ".data ++ p.1 ++ " = ".data ++ pyStr p.2 ++ ".".data))
      pure (s1 ++ s2))
  let snippets := kgSnippets ++ organicSnippets.flatten
  if snippets.length = 0 then
    return "No good results found".data
  else
    return List.intercalate "\n\n".data snippets

mutual

/-- Tree positions the chunker can emit text from: the element itself and,
recursively, the positions of its Tag children, in document pre-order. -/
def preorderTags : Elem → List Elem
  | .nav s => [.nav s]
  | .tag n a cs => .tag n a cs :: preorderTagsList cs

def preorderTagsList : List Elem → List Elem
  | [] => []
  | c :: rest => (if c.isTag then preorderTags c else []) ++ preorderTagsList rest

end

/-- A childless element (one text node, no Tag children) whose extracted
text is longer than the small budgets used below. -/
def exLeafBig : Elem := .tag "p".data [] [.nav "aaaaaaaaaaaaaaaaaaaa".data]

/-- An element with whitespace-only text and no hyperlinks. -/
def exEmptyDiv : Elem := .tag "div".data [] [.nav "   \n ".data]

/-- A 10-character link target. -/
def a10 : Str := List.replicate 10 'a'

/-- A 200-character link target (longer than `MAX_LINK_LEN`). -/
def a200 : Str := List.replicate 200 'a'

/-- An element with anchors whose hrefs are `a10`, `a200` and a duplicate
`a10`. -/
def exLinks : Elem :=
  .tag "div".data []
    [ .tag "a".data [("href".data, a10)] [.nav "x".data],
      .tag "a".data [("href".data, a200)] [.nav "y".data],
      .tag "a".data [("href".data, a10)] [.nav "z".data] ]

theorem merge_foldl (m : Nat) : ∀ (vs : List Str) (acc : List Str) (cur : Str),
    (fun p : List Str × Str => if p.2 = [] then p.1 else p.1 ++ [p.2])
        (vs.foldl (mergeStep m) (acc, cur)) =
      acc ++ mergeGo m vs cur
  | [], acc, cur => by
      by_cases h : cur = [] <;> simp [mergeGo, h]
  | s :: rest, acc, cur => by
      simp only [List.foldl_cons, mergeStep]
      by_cases h : cur.length + s.length ≤ m
      · simpa [mergeGo, h] using merge_foldl m rest acc (cur ++ s)
      · simpa [mergeGo, h] using merge_foldl m rest (acc ++ [cur]) s

theorem merge_eq_go (vs : List Str) (m : Nat) :
    _merge_text_chunks vs m = mergeGo m vs [] := by
  simpa [_merge_text_chunks] using merge_foldl m vs [] []

theorem mergeGo_flatten (m : Nat) : ∀ (vs : List Str) (cur : Str),
    (mergeGo m vs cur).flatten = cur ++ vs.flatten
  | [], cur => by by_cases h : cur = [] <;> simp [mergeGo, h]
  | s :: rest, cur => by
      by_cases h : cur.length + s.length ≤ m
      · simp [mergeGo, h, mergeGo_flatten m rest (cur ++ s)]
      · simp [mergeGo, h, mergeGo_flatten m rest s]

theorem mergeGo_head_len (m : Nat) : ∀ (vs : List Str) (cur h : Str),
    (mergeGo m vs cur).head? = some h → cur.length ≤ h.length
  | [], cur, h => by
      by_cases hc : cur = []
      · simp [mergeGo, hc]
      · simp only [mergeGo, if_neg hc, List.head?_cons]
        rintro ⟨rfl⟩
        exact Nat.le_refl _
  | s :: rest, cur, h => by
      by_cases hc : cur.length + s.length ≤ m
      · intro he
        have := mergeGo_head_len m rest (cur ++ s) h (by simpa [mergeGo, hc] using he)
        simp only [List.length_append] at this
        omega
      · intro he
        simp only [mergeGo, if_neg hc, List.head?_cons] at he
        cases he
        exact Nat.le_refl _

theorem mergeGo_chain (m : Nat) : ∀ (vs : List Str) (cur : Str),
    List.Chain' (fun a b : Str => m < a.length + b.length) (mergeGo m vs cur)
  | [], cur => by by_cases hc : cur = [] <;> simp [mergeGo, hc]
  | s :: rest, cur => by
      by_cases hc : cur.length + s.length ≤ m
      · simpa [mergeGo, hc] using mergeGo_chain m rest (cur ++ s)
      · simp only [mergeGo, if_neg hc]
        rw [List.chain'_cons']
        refine ⟨fun h hh => ?_, mergeGo_chain m rest s⟩
        have hs := mergeGo_head_len m rest s h (Option.mem_def.mp hh)
        omega

theorem mergeGo_head_small (m : Nat) : ∀ (vs : List Str) (cur : Str),
    cur.length ≤ m → ∀ h, (mergeGo m vs cur).head? = some h → h.length ≤ m
  | [], cur => by
      intro hcm h
      by_cases hc : cur = []
      · simp [mergeGo, hc]
      · simp only [mergeGo, if_neg hc, List.head?_cons]
        rintro ⟨rfl⟩
        exact hcm
  | s :: rest, cur => by
      intro hcm h
      by_cases hc : cur.length + s.length ≤ m
      · intro he
        exact mergeGo_head_small m rest (cur ++ s) (by simpa using hc) h
          (by simpa [mergeGo, hc] using he)
      · intro he
        simp only [mergeGo, if_neg hc, List.head?_cons] at he
        cases he
        exact hcm

theorem mergeGo_ne_nil (m : Nat) : ∀ (vs : List Str) (cur : Str),
    cur ≠ [] → mergeGo m vs cur ≠ []
  | [], cur, h => by simp [mergeGo, h]
  | s :: rest, cur, h => by
      by_cases hc : cur.length + s.length ≤ m
      · simpa [mergeGo, hc] using
          mergeGo_ne_nil m rest (cur ++ s) (by simp [h])
      · simp [mergeGo, hc]

theorem mergeGo_getLast (m : Nat) : ∀ (vs : List Str) (cur l : Str),
    (mergeGo m vs cur).getLast? = some l → l ≠ []
  | [], cur, l => by
      by_cases hc : cur = []
      · simp [mergeGo, hc]
      · simp only [mergeGo, if_neg hc, List.getLast?_singleton]
        rintro ⟨rfl⟩
        exact hc
  | s :: rest, cur, l => by
      by_cases hc : cur.length + s.length ≤ m
      · intro h
        exact mergeGo_getLast m rest (cur ++ s) l (by simpa [mergeGo, hc] using h)
      · intro h
        simp only [mergeGo, if_neg hc] at h
        cases hgo : mergeGo m rest s with
        | nil =>
            have hs : s = [] := by
              by_contra hs
              exact mergeGo_ne_nil m rest s hs hgo
            rw [hgo] at h
            simp only [List.getLast?_singleton] at h
            cases h
            intro hl
            rw [hl, hs] at hc
            simp at hc
        | cons a t =>
            rw [hgo, List.getLast?_cons_cons] at h
            exact mergeGo_getLast m rest s l (hgo ▸ h)

theorem mergeGo_fixpoint (m : Nat) : ∀ (rest : List Str) (cur : Str),
    List.Chain' (fun a b : Str => m < a.length + b.length) (cur :: rest) →
    (∀ l, (cur :: rest).getLast? = some l → l ≠ []) →
    mergeGo m rest cur = cur :: rest
  | [], cur, _, hl => by
      have hcur : cur ≠ [] := hl cur (by simp)
      simp [mergeGo, hcur]
  | s :: rest, cur, hch, hl => by
      have hR : m < cur.length + s.length := (List.chain'_cons.mp hch).1
      have hnot : ¬ cur.length + s.length ≤ m := by omega
      have hrec := mergeGo_fixpoint m rest s (List.chain'_cons.mp hch).2
        (fun l h => hl l (by rw [List.getLast?_cons_cons]; exact h))
      simp [mergeGo, hnot, hrec]

theorem merge_idem (vs : List Str) (m : Nat) :
    _merge_text_chunks (_merge_text_chunks vs m) m = _merge_text_chunks vs m := by
  rw [merge_eq_go vs m, merge_eq_go _ m]
  cases hws : mergeGo m vs [] with
  | nil => simp [mergeGo]
  | cons w rest =>
      have hhead : w.length ≤ m :=
        mergeGo_head_small m vs [] (Nat.zero_le m) w (by rw [hws]; rfl)
      have hch := mergeGo_chain m vs []
      rw [hws] at hch
      have hlast : ∀ l, (w :: rest).getLast? = some l → l ≠ [] :=
        fun l h => mergeGo_getLast m vs [] l (by rw [hws]; exact h)
      have hcond : ([] : Str).length + w.length ≤ m := by simpa using hhead
      simp only [mergeGo, if_pos hcond, List.nil_append]
      exact mergeGo_fixpoint m rest w hch hlast

theorem mergeGo_grouping (m : Nat) : ∀ (vs : List Str) (cur : Str), [] ∉ vs → cur ≠ [] →
    ∃ (g1 : List Str) (gtl : List (List Str)),
      (g1 :: gtl).flatten = vs ∧
      mergeGo m vs cur = (cur ++ g1.flatten) :: gtl.map (fun g => g.flatten)
  | [], cur, _, hcur => ⟨[], [], by simp, by simp [mergeGo, hcur]⟩
  | s :: rest, cur, hmem, hcur => by
      have hs : s ≠ [] := fun h => hmem (by simp [h])
      have hrest : [] ∉ rest := fun h => hmem (List.mem_cons_of_mem _ h)
      by_cases hc : cur.length + s.length ≤ m
      · obtain ⟨g1, gtl, hfl, heq⟩ :=
          mergeGo_grouping m rest (cur ++ s) hrest (by simp [hs])
        refine ⟨s :: g1, gtl, ?_, ?_⟩
        · simp only [List.flatten_cons] at hfl ⊢
          rw [List.cons_append, ← hfl]
        · simp only [mergeGo, if_pos hc, heq, List.flatten_cons]
          simp [List.append_assoc]
      · obtain ⟨g1, gtl, hfl, heq⟩ := mergeGo_grouping m rest s hrest hs
        refine ⟨[], (s :: g1) :: gtl, ?_, ?_⟩
        · simp only [List.flatten_cons] at hfl ⊢
          simp only [List.nil_append, List.cons_append, ← hfl]
        · simp only [mergeGo, if_neg hc, heq, List.map_cons, List.flatten_cons]
          simp

theorem merge_grouping (vs : List Str) (m : Nat) (h : [] ∉ vs) :
    ∃ gs : List (List Str), gs.flatten = vs ∧
      _merge_text_chunks vs m = gs.map (fun g => g.flatten) := by
  rw [merge_eq_go]
  cases vs with
  | nil => exact ⟨[], by simp, by simp [mergeGo]⟩
  | cons s rest =>
      have hs : s ≠ [] := fun hh => h (by simp [hh])
      have hrest : [] ∉ rest := fun hh => h (List.mem_cons_of_mem _ hh)
      obtain ⟨g1, gtl, hfl, heq⟩ := mergeGo_grouping m rest s hrest hs
      by_cases hc : s.length ≤ m
      · refine ⟨(s :: g1) :: gtl, ?_, ?_⟩
        · simp only [List.flatten_cons] at hfl ⊢
          rw [List.cons_append, ← hfl]
        · rw [show mergeGo m (s :: rest) [] = mergeGo m rest s by
            simp [mergeGo, hc]]
          simp [heq, List.flatten_cons]
      · refine ⟨[] :: (s :: g1) :: gtl, ?_, ?_⟩
        · simp only [List.flatten_cons] at hfl ⊢
          simp only [List.nil_append, List.cons_append, ← hfl]
        · rw [show mergeGo m (s :: rest) [] = [] :: mergeGo m rest s by
            simp [mergeGo, hc]]
          simp [heq, List.flatten_cons]

theorem Elem.induct (motive : Elem → Prop) (h1 : ∀ s, motive (.nav s))
    (h2 : ∀ n a cs, (∀ c ∈ cs, motive c) → motive (.tag n a cs)) : ∀ e, motive e
  | .nav s => h1 s
  | .tag n a cs => h2 n a cs (fun c hc => Elem.induct motive h1 h2 c)
termination_by e => sizeOf e
decreasing_by
  have := List.sizeOf_lt_of_mem hc
  simp
  omega

theorem element_text_len (e : Elem) : (_element_to_text e).length ≠ 0 := by
  simp only [_element_to_text, List.length_append, List.length_cons, List.length_nil]
  omega

theorem chunk_elem_def (e : Elem) (m : Nat) :
    _chunk_element e m =
      if (_element_to_text e).length = 0 then []
      else if (_element_to_text e).length ≤ m then [_element_to_text e]
      else
        match e with
        | .nav _ => []
        | .tag _ _ cs => chunkTagChildren cs m := by
  cases e <;> rfl

theorem chunkTagChildren_eq (m : Nat) : ∀ cs : List Elem,
    chunkTagChildren cs m = (cs.filter Elem.isTag).flatMap (fun c => _chunk_element c m)
  | [] => by simp [chunkTagChildren]
  | c :: rest => by
      by_cases ht : c.isTag
      · simp [chunkTagChildren, List.filter_cons, ht, chunkTagChildren_eq m rest]
      · simp [chunkTagChildren, List.filter_cons, ht, chunkTagChildren_eq m rest]

theorem chunk_big (e : Elem) (m : Nat) (h : ¬ (_element_to_text e).length ≤ m) :
    _chunk_element e m = (findChildren e).flatMap (fun c => _chunk_element c m) := by
  rw [chunk_elem_def, if_neg (element_text_len e), if_neg h]
  cases e with
  | nav s => simp [findChildren]
  | tag n a cs =>
      show chunkTagChildren cs m = (cs.filter Elem.isTag).flatMap fun c => _chunk_element c m
      exact chunkTagChildren_eq m cs

theorem chunk_childless (e : Elem) (m : Nat) (hch : findChildren e = [])
    (hbig : m < (_element_to_text e).length) : _chunk_element e m = [] := by
  rw [chunk_big e m (by omega), hch]
  rfl

theorem chunkTagChildren_all_le (m : Nat) : ∀ (cs : List Elem),
    (∀ c ∈ cs, ∀ x ∈ _chunk_element c m, x.length ≤ m) →
    ∀ x ∈ chunkTagChildren cs m, x.length ≤ m
  | [], _, x, hx => by simp [chunkTagChildren] at hx
  | c :: rest, h, x, hx => by
      simp only [chunkTagChildren, List.mem_append] at hx
      rcases hx with hx | hx
      · by_cases ht : c.isTag
        · exact h c (by simp) x (by simpa [ht] using hx)
        · simp [ht] at hx
      · exact chunkTagChildren_all_le m rest
          (fun c hc => h c (List.mem_cons_of_mem _ hc)) x hx

theorem chunk_all_le (m : Nat) : ∀ (e : Elem), ∀ c ∈ _chunk_element e m, c.length ≤ m := by
  refine Elem.induct (fun e => ∀ c ∈ _chunk_element e m, c.length ≤ m) ?_ ?_
  · intro s c hc
    rw [chunk_elem_def] at hc
    rw [if_neg (element_text_len _)] at hc
    by_cases hle : (_element_to_text (Elem.nav s)).length ≤ m
    · rw [if_pos hle] at hc
      simp only [List.mem_singleton] at hc
      subst hc
      exact hle
    · rw [if_neg hle] at hc
      simp at hc
  · intro n a cs ih c hc
    rw [chunk_elem_def] at hc
    rw [if_neg (element_text_len _)] at hc
    by_cases hle : (_element_to_text (Elem.tag n a cs)).length ≤ m
    · rw [if_pos hle] at hc
      simp only [List.mem_singleton] at hc
      subst hc
      exact hle
    · rw [if_neg hle] at hc
      exact chunkTagChildren_all_le m cs ih c hc

theorem chunkTagChildren_sublist (m : Nat) : ∀ (cs : List Elem),
    (∀ c ∈ cs, List.Sublist (_chunk_element c m) ((preorderTags c).map _element_to_text)) →
    List.Sublist (chunkTagChildren cs m) ((preorderTagsList cs).map _element_to_text)
  | [], _ => by simp [chunkTagChildren, preorderTagsList]
  | c :: rest, h => by
      simp only [chunkTagChildren, preorderTagsList, List.map_append]
      refine List.Sublist.append ?_
        (chunkTagChildren_sublist m rest (fun c hc => h c (List.mem_cons_of_mem _ hc)))
      by_cases ht : c.isTag
      · simpa [ht] using h c (by simp)
      · simp [ht]

theorem chunk_sublist (m : Nat) : ∀ (e : Elem),
    List.Sublist (_chunk_element e m) ((preorderTags e).map _element_to_text) := by
  refine Elem.induct
    (fun e => List.Sublist (_chunk_element e m) ((preorderTags e).map _element_to_text)) ?_ ?_
  · intro s
    rw [chunk_elem_def, if_neg (element_text_len _)]
    by_cases hle : (_element_to_text (Elem.nav s)).length ≤ m
    · rw [if_pos hle]
      simp [preorderTags]
    · rw [if_neg hle]
      exact List.nil_sublist _
  · intro n a cs ih
    rw [chunk_elem_def, if_neg (element_text_len _)]
    by_cases hle : (_element_to_text (Elem.tag n a cs)).length ≤ m
    · rw [if_pos hle]
      simp only [preorderTags, List.map_cons]
      exact (List.nil_sublist _).cons₂ _
    · rw [if_neg hle]
      simp only [preorderTags, List.map_cons]
      exact List.Sublist.cons _ (chunkTagChildren_sublist m cs ih)

theorem scrape_fails {ε α : Type} : ∀ (n k : Nat) (fetch : Nat → Except ε α) (e : ε),
    (∀ j, fetch j = .error e) →
    scrape_text fetch k n = .error e ∧ scrape_attempts fetch k n = n + 1
  | 0, k, fetch, e, h => by
      rw [scrape_text, scrape_attempts, h k]
      simp
  | n + 1, k, fetch, e, h => by
      have ih := scrape_fails n (k + 1) fetch e h
      rw [scrape_text, scrape_attempts, h k]
      simp only [Nat.succ_sub_one, Nat.zero_lt_succ, if_pos]
      rw [ih.1, ih.2]
      simp [Nat.add_comm]

/-- Claim C1 as stated is false: a childless element whose extracted text
exceeds `max_size` yields the empty chunk list, not one oversized chunk.
Concretely, `exLeafBig` has no child Tags, its extracted text has length
29 > 10, and `_chunk_element exLeafBig 10` is `[]`. -/
theorem C1_counterexample :
    findChildren exLeafBig = [] ∧ 10 < (_element_to_text exLeafBig).length ∧
    _chunk_element exLeafBig 10 = [] ∧
    _chunk_element exLeafBig 10 ≠ [_element_to_text exLeafBig] :=
  ⟨rfl, by decide, rfl, by decide⟩

/-- C1 (amended): an element with no child Tags whose extracted text exceeds
`max_size` contributes zero chunks — the oversized text is dropped, not
emitted or truncated. -/
theorem C1_oversized_leaf_dropped (e : Elem) (m : Nat) (hch : findChildren e = [])
    (hbig : m < (_element_to_text e).length) : _chunk_element e m = [] :=
  chunk_childless e m hch hbig

theorem C1_oversized_leaf_dropped_witness :
    findChildren exLeafBig = [] ∧ 10 < (_element_to_text exLeafBig).length ∧
    _chunk_element exLeafBig 10 = [] :=
  ⟨rfl, by decide, C1_oversized_leaf_dropped exLeafBig 10 rfl (by decide)⟩

/-- Claim C2 as stated is false: merging the single oversized chunk `"aa"`
with `max_size = 1` yields `["", "aa"]`, not `["aa"]` — an empty chunk
appears in the output. -/
theorem C2_counterexample :
    _merge_text_chunks ["aa".data] 1 = [[], "aa".data] ∧
    _merge_text_chunks ["aa".data] 1 ≠ ["aa".data] :=
  ⟨rfl, by decide⟩

/-- C2 (amended): a single input chunk longer than `max_size` passes through
unsplit and unconcatenated, but preceded by exactly one empty chunk: the
output is `["", X]`. -/
theorem C2_oversized_passthrough (X : Str) (m : Nat) (h : m < X.length) :
    _merge_text_chunks [X] m = [[], X] := by
  rw [merge_eq_go]
  have h1 : ¬ X.length ≤ m := by omega
  have h2 : X ≠ [] := by
    intro hX
    rw [hX] at h
    simp at h
  simp [mergeGo, h1, h2]

theorem C2_oversized_passthrough_witness :
    1 < ("aa".data).length ∧ _merge_text_chunks ["aa".data] 1 = [[], "aa".data] :=
  ⟨by decide, C2_oversized_passthrough "aa".data 1 (by decide)⟩

/-- Claim C3: `exEmptyDiv` has whitespace-only text and no hyperlinks, yet
`_chunk_element` emits one chunk, the constant suffix `"\n\nLinks: "`,
rather than zero chunks: the `len(text) == 0` prune branch of
`_chunk_element` is unreachable because `_element_to_text`
unconditionally appends `"\n\nLinks: "`. -/
theorem C3_empty_element_emits_stub :
    getText exEmptyDiv = "   \n ".data ∧
    descendantLinkHrefs exEmptyDiv = [] ∧
    _element_text_part exEmptyDiv = [] ∧
    _chunk_element exEmptyDiv 100 = ["\n\nLinks: ".data] ∧
    _chunk_element exEmptyDiv 100 ≠ [] :=
  ⟨rfl, rfl, by decide, by decide, by decide⟩

/-- Claim C4 as stated is false for the caching variant: on a response with
no `organic` key (and no `answerBox`/`knowledgeGraph`),
`GoogleSerperSearchWrapper._parse_results` raises `KeyError("organic")`
via the bare subscript `results["organic"]` instead of returning the
fallback string. -/
theorem C4_counterexample :
    google_parse_results 10 [] = .error (.keyError "organic".data) ∧
    google_parse_results 10 [] ≠ .ok "No good results found".data :=
  ⟨rfl, fun h => Except.noConfusion h⟩

/-- C4 (amended): on a response dict with none of the keys `answerBox`,
`knowledgeGraph`, `organic`, the caching variant raises
`KeyError("organic")`; the non-caching variant returns the literal
fallback `"No good search result was found"` provided the dict also lacks
`peopleAlsoAsk` and `relatedSearches` (those two sections would otherwise
contribute snippets). -/
theorem C4_missing_keys (q : Nat) (kvs : List (Str × JVal))
    (hab : dictGet kvs "answerBox".data = none)
    (hkg : dictGet kvs "knowledgeGraph".data = none)
    (horg : dictGet kvs "organic".data = none) :
    google_parse_results q kvs = .error (.keyError "organic".data) ∧
    (dictGet kvs "peopleAlsoAsk".data = none →
      dictGet kvs "relatedSearches".data = none →
      brightdata_parse_results q kvs = .ok "No good search result was found".data) := by
  constructor
  · simp [google_parse_results, hab, hkg, horg, optTruthy, dictIndex, truthy,
      Except.bind, bind, pure, Except.pure]
  · intro hpaa hrs
    simp only [brightdata_parse_results, brightdata_parse_snippets, hkg, horg, hpaa, hrs,
      Option.getD_none, truthy, List.isEmpty_nil, Bool.not_true, Bool.false_eq_true,
      if_neg, jSlice, jList, jGetD, jGet, Except.bind, bind, pure, Except.pure,
      Except.map, List.take_nil, List.mapM_nil]
    rfl

theorem C4_missing_keys_witness :
    dictGet [] "answerBox".data = none ∧
    dictGet [] "knowledgeGraph".data = none ∧
    dictGet [] "organic".data = none ∧
    dictGet [] "peopleAlsoAsk".data = none ∧
    dictGet [] "relatedSearches".data = none ∧
    google_parse_results 10 [] = .error (.keyError "organic".data) ∧
    brightdata_parse_results 10 [] = .ok "No good search result was found".data :=
  ⟨rfl, rfl, rfl, rfl, rfl, (C4_missing_keys 10 [] rfl rfl rfl).1,
    (C4_missing_keys 10 [] rfl rfl rfl).2 rfl rfl⟩

/-- C5: `_merge_text_chunks` is idempotent — in particular on any chunk list
in which at most one chunk exceeds `max_size`, re-running the merge leaves
its output unchanged. -/
theorem C5_merge_idempotent (vs : List Str) (m : Nat)
    (h : (vs.filter fun s => decide (m < s.length)).length ≤ 1) :
    _merge_text_chunks (_merge_text_chunks vs m) m = _merge_text_chunks vs m :=
  merge_idem vs m

theorem C5_merge_idempotent_witness :
    ((["ab".data, "c".data].filter fun s => decide (1 < s.length)).length ≤ 1) ∧
    _merge_text_chunks (_merge_text_chunks ["ab".data, "c".data] 1) 1 =
      _merge_text_chunks ["ab".data, "c".data] 1 :=
  ⟨by decide, C5_merge_idempotent ["ab".data, "c".data] 1 (by decide)⟩

/-- C6: chunker output lists the extracted texts of a subset of tree
positions in document pre-order (a sublist of the pre-order traversal);
an oversized element's chunk list is its child Tags' chunk lists
concatenated in sibling order; and the merge only groups adjacent chunks —
its output is the groupwise concatenation of a contiguous, order-preserving
partition of its input (stated for inputs without empty chunks, which is
what the chunker produces). -/
theorem C6_order_preservation :
    (∀ (e : Elem) (m : Nat),
        List.Sublist (_chunk_element e m) ((preorderTags e).map _element_to_text)) ∧
    (∀ (e : Elem) (m : Nat), ¬ (_element_to_text e).length ≤ m →
        _chunk_element e m = (findChildren e).flatMap (fun c => _chunk_element c m)) ∧
    (∀ (vs : List Str) (m : Nat), [] ∉ vs →
        ∃ gs : List (List Str), gs.flatten = vs ∧
          _merge_text_chunks vs m = gs.map (fun g => g.flatten)) :=
  ⟨fun e m => chunk_sublist m e, fun e m h => chunk_big e m h,
    fun vs m h => merge_grouping vs m h⟩

theorem C6_order_preservation_witness :
    (¬ (_element_to_text exLeafBig).length ≤ 10) ∧
    _chunk_element exLeafBig 10 =
      (findChildren exLeafBig).flatMap (fun c => _chunk_element c 10) ∧
    (([] : Str) ∉ [['a'], ['b']]) ∧
    (∃ gs : List (List Str), gs.flatten = [['a'], ['b']] ∧
        _merge_text_chunks [['a'], ['b']] 5 = gs.map (fun g => g.flatten)) :=
  ⟨by decide, C6_order_preservation.2.1 exLeafBig 10 (by decide), by decide,
    C6_order_preservation.2.2 [['a'], ['b']] 5 (by decide)⟩

/-- C7: if every fetch attempt fails with exception `e`, `scrape_text` with
`retries = n` performs exactly `n + 1` attempts and raises `e`; in
particular with `retries = 0` it raises on the first attempt with no
retry. -/
theorem C7_retry_exhaustion {ε α : Type} (n : Nat) (fetch : Nat → Except ε α) (e : ε)
    (h : ∀ j, fetch j = .error e) :
    scrape_text fetch 0 n = .error e ∧ scrape_attempts fetch 0 n = n + 1 :=
  scrape_fails n 0 fetch e h

theorem C7_retry_exhaustion_witness :
    (∀ j, (fun _ : Nat => (Except.error 7 : Except Nat Nat)) j = .error 7) ∧
    scrape_text (fun _ : Nat => (Except.error 7 : Except Nat Nat)) 0 0 = .error 7 ∧
    scrape_attempts (fun _ : Nat => (Except.error 7 : Except Nat Nat)) 0 0 = 0 + 1 :=
  ⟨fun _ => rfl, C7_retry_exhaustion 0 (fun _ => Except.error 7) 7 (fun _ => rfl)⟩

set_option maxRecDepth 8000 in
/-- C8: a link target appears in the extracted link list iff it is an href
of a descendant anchor and its length is at most `MAX_LINK_LEN = 120`, and
the list is duplicate-free; on the concrete element with hrefs `a10`,
`a200`, `a10`, the list contains exactly one occurrence of the
10-character target and excludes the 200-character one. -/
theorem C8_link_filter_dedup :
    (∀ (e : Elem) (x : Str),
        (x ∈ _element_links_dedup e ↔
          x ∈ descendantLinkHrefs e ∧ x.length ≤ MAX_LINK_LEN) ∧
        (_element_links_dedup e).Nodup) ∧
    (_element_links_dedup exLinks).count a10 = 1 ∧
    a200 ∉ _element_links_dedup exLinks := by
  refine ⟨fun e x => ⟨?_, List.nodup_dedup _⟩, by decide, by decide⟩
  rw [_element_links_dedup, List.mem_dedup, _element_links, List.mem_filter]
  simp

/-- C9: every chunk `_chunk_element` returns has length at most `max_size`,
with no exception for oversized leaves; consequently a childless element
whose extracted text exceeds `max_size` contributes zero chunks. -/
theorem C9_chunks_bounded :
    (∀ (e : Elem) (m : Nat), ∀ c ∈ _chunk_element e m, c.length ≤ m) ∧
    (∀ (e : Elem) (m : Nat), findChildren e = [] → m < (_element_to_text e).length →
        _chunk_element e m = []) :=
  ⟨fun e m => chunk_all_le m e, fun e m h1 h2 => chunk_childless e m h1 h2⟩

theorem C9_chunks_bounded_witness :
    ("\n\nLinks: ".data ∈ _chunk_element (Elem.tag "div".data [] []) 100) ∧
    ("\n\nLinks: ".data).length ≤ 100 ∧
    findChildren exLeafBig = [] ∧ 5 < (_element_to_text exLeafBig).length ∧
    _chunk_element exLeafBig 5 = [] :=
  ⟨by decide,
    C9_chunks_bounded.1 (Elem.tag "div".data [] []) 100 "\n\nLinks: ".data (by decide),
    rfl, by decide, C9_chunks_bounded.2 exLeafBig 5 rfl (by decide)⟩

/-- C10: the merge preserves content exactly — the concatenation of its
output chunks equals the concatenation of its input chunks, character for
character, with no separator added. -/
theorem C10_merge_content_preserved (vs : List Str) (m : Nat) :
    (_merge_text_chunks vs m).flatten = vs.flatten := by
  rw [merge_eq_go]
  simpa using mergeGo_flatten m vs []
